import Mathlib

/-!
Verification of the HC-05 configurer sketch.

Shallow embedding of `src/arduino_hc05_configurer.ino` and proofs about it.

Modelling conventions:
* An Arduino `String` is modelled as the `List Nat` of the bytes stored in its
  buffer (`len` bytes; the C-terminator at position `len` is implicit).
* Arduino `String::operator[]` is bounds checked: an out-of-range read yields
  the dummy character `0`, an out-of-range write goes to a dummy cell and
  leaves the buffer unchanged.  `List.getD _ _ 0` and `List.set` (which is a
  no-op out of range) model this exactly.
* AVR `int` / `unsigned int` are 16-bit; the conversion of a negative `int`
  index to `unsigned int` is modelled explicitly with `% 65536`.
* The two byte streams are modelled by the list of bytes they deliver during
  the exchange under consideration; `Serial.println` of a string emits the
  string's buffer bytes and `print`s are recorded as the list of printed
  messages.
-/

namespace HC05

/-- Value of the terminator macro defined in line 26 of the sketch: the terminator byte the stream
readers look for is 13 (carriage return), despite the `\n` in the comments. -/
def LF : Nat := 13

/-- Arduino `String` element read `s[i]`: the byte at `i`, or the dummy `0`
when `i` is out of range (`WString.h` returns a zeroed dummy char). -/
def strGet (s : List Nat) (i : Nat) : Nat := s.getD i 0

/-- Arduino `String` element write `s[i] = v`: `List.set` is a no-op when `i`
is out of range, exactly like the dummy-cell write of `WString.h`. -/
def strSet (s : List Nat) (i v : Nat) : List Nat := s.set i v

/-- Conversion of an AVR `int` (16-bit, two's complement) to `unsigned int`,
as happens when `res.indexOf(LF)` (an `int`, possibly `-1`) is used as the
index argument of `String::operator[]`. -/
def intToUInt16 (p : Int) : Nat := (p % 65536).toNat

/-- The strchr scan behind Arduino `String::indexOf(char)`: position of the
first occurrence of `c` in the buffer, stopping at the first embedded `0`
byte (the C string terminator).  Only used with `c = LF ≠ 0`. -/
def strchrIdx (c : Nat) : List Nat → Option Nat
  | [] => none
  | b :: t => if b == c then some 0 else if b == 0 then none else (strchrIdx c t).map (· + 1)

/-- Arduino `String::indexOf(char)`: the `strchr` position, or `-1` (as an
AVR `int`) when the character is not found before the terminator. -/
def strIndexOf (s : List Nat) (c : Nat) : Int :=
  match strchrIdx c s with
  | some i => (i : Int)
  | none => -1

/-- Body of the `while(s.available())` loop of `readLine` (lines 38-43):
append the byte just read, then `if(int p = res.indexOf(LF)) res[p]='\0';`.
The `if` tests the *truthiness* of `p`, so position `0` is skipped and a
not-found `-1` becomes the unsigned index `65535`. -/
def readLineStep (res : List Nat) (c : Nat) : List Nat :=
  if strIndexOf (res ++ [c]) LF ≠ 0 then
    strSet (res ++ [c]) (intToUInt16 (strIndexOf (res ++ [c]) LF)) 0
  else res ++ [c]

/-- Function readLine (lines 36-45): `res` is reset to `""`, then every available
byte of the stream is consumed by `readLineStep`. -/
def readLine (stream : List Nat) : List Nat := stream.foldl readLineStep []

/-- Function readLineSerial (lines 53-65): the same loop over the primary stream
(`res` is *not* cleared), also counting one `i++` per byte read, so the
returned count is the number of available bytes consumed. -/
def readLineSerial (res : List Nat) (stream : List Nat) : List Nat × Nat :=
  (stream.foldl readLineStep res, stream.length)

/-- Scan loop of `fixTermInput` (line 75): first index `i` with
`userInput[i]` equal to `'\0'` or `'\n'`.  Because an out-of-range read
yields the dummy `0`, the scan always stops at `s.length` at the latest, so
the result is the first hit inside the buffer, or `s.length`. -/
def fixScanIdx : List Nat → Nat
  | [] => 0
  | b :: t => if b == 0 || b == 10 then 0 else fixScanIdx t + 1

/-- Function fixTermInput (lines 73-81): rewrite the scan position to `'\n'` and the
following position to `'\0'`.  On the device `len < 2 ^ 16`, so the indices
involved never wrap and no modular reduction is needed here. -/
def fixTermInput (s : List Nat) : List Nat :=
  strSet (strSet s (fixScanIdx s) 10) (fixScanIdx s + 1) 0

/-- Value of sizeof applied to the Arduino String type on AVR: a `char*` buffer pointer plus two
`unsigned int` fields (capacity, len), 6 bytes.  `sizeof(response)` in line
101 measures the handle type, not the stored text. -/
def sizeofArduinoString : Nat := 6

/-- The classification of line 101:
`sizeof(response)>=2 && response[0]=='O' && response[1]=='K'`
(`'O' = 79`, `'K' = 75`). -/
def classifyResponse (resp : List Nat) : Bool :=
  decide (2 ≤ sizeofArduinoString) && (strGet resp 0 == 79) && (strGet resp 1 == 75)

/-- Result of one `bt_sendATCommand` exchange: the bytes written to the
module stream, the captured response buffer, and the returned boolean. -/
structure ATExchange where
  sent : List Nat
  response : List Nat
  ok : Bool
deriving DecidableEq

/-- Function bt_sendATCommand (lines 91-102), data part: `bt.println(cmd)` writes
the command bytes followed by `"\r\n"` (Arduino `println` terminates lines
with CR LF); the response is drained by `readLine` from whatever the module
stream delivers (`btPending`), and classified by line 101.  The wait loop of
lines 95-98 is modelled separately by `btWaitFrom` below. -/
def bt_sendATCommand (cmd btPending : List Nat) : ATExchange :=
  { sent := cmd ++ [13, 10]
  , response := readLine btPending
  , ok := classifyResponse (readLine btPending) }

/-- The wait loop of lines 94-98: `while(bt.available()==0 && i < 100)
{ delay(10); i++; }`.  `avail i` tells whether a byte is available when the
condition is evaluated for the `i`-th time; the first argument is the number
of iterations still allowed (`100 - i`), so `i < 100` holds exactly when it
is nonzero.  The returned value is the final `i`, i.e. the number of
`delay(10)` calls executed. -/
def btWaitFrom (avail : Nat → Bool) : Nat → Nat → Nat
  | 0, i => i
  | r + 1, i => if avail i then i else btWaitFrom avail r (i + 1)

/-- The wait loop as entered by `bt_sendATCommand`: `i` starts at `0` and at
most `100` iterations are allowed. -/
def btWait (avail : Nat → Bool) : Nat := btWaitFrom avail 100 0

/-- UTF code points of a string literal, used to spell the sketch's message
and command text as byte lists. -/
def strB (s : String) : List Nat := s.data.map Char.toNat

/-- Function bt_checkATenabled (lines 110-114): send the probe `"AT"` with a fresh
response buffer and return the boolean directly. -/
def bt_checkATenabled (btPending : List Nat) : Bool :=
  (bt_sendATCommand (strB ("AT")) btPending).ok

/-! ## Helper lemmas about the string primitives -/

theorem set_oob : ∀ (l : List Nat) (n v : Nat), l.length ≤ n → l.set n v = l := by
  intro l
  induction l with
  | nil => intro n v _; rfl
  | cons a t ih =>
    intro n v h
    cases n with
    | zero => simp at h
    | succ m =>
      simp only [List.set_cons_succ]
      rw [ih m v (by simpa using h)]

theorem set_append_right : ∀ (w l : List Nat) (i v : Nat),
    (w ++ l).set (w.length + i) v = w ++ l.set i v := by
  intro w
  induction w with
  | nil => intro l i v; simp
  | cons a t ih =>
    intro l i v
    simp only [List.cons_append, List.length_cons]
    have : a :: t ++ l = a :: (t ++ l) := rfl
    rw [show t.length + 1 + i = (t.length + i) + 1 by omega]
    simp only [List.set_cons_succ]
    rw [ih]

theorem strchrIdx_some_lt : ∀ (s : List Nat) (c i : Nat),
    strchrIdx c s = some i → i < s.length := by
  intro s
  induction s with
  | nil => intro c i h; simp [strchrIdx] at h
  | cons b t ih =>
    intro c i h
    simp only [strchrIdx] at h
    split at h
    · simp only [Option.some.injEq] at h
      simp only [List.length_cons]
      omega
    · split at h
      · simp at h
      · rw [Option.map_eq_some'] at h
        obtain ⟨j, hj, rfl⟩ := h
        have := ih c j hj
        simp only [List.length_cons]
        omega

theorem strchrIdx_none_of_not_mem : ∀ (s : List Nat) (c : Nat),
    (∀ b ∈ s, b ≠ c) → strchrIdx c s = none := by
  intro s
  induction s with
  | nil => intro c _; rfl
  | cons b t ih =>
    intro c h
    simp only [strchrIdx]
    have hbc : (b == c) = false := by
      simp only [beq_eq_false_iff_ne]
      exact h b (by simp)
    rw [hbc]
    simp only [Bool.false_eq_true, if_false]
    by_cases hb0 : (b == 0) = true
    · rw [hb0]; simp
    · rw [show (b == 0) = false by simpa using hb0]
      simp only [Bool.false_eq_true, if_false]
      rw [ih c (fun x hx => h x (by simp [hx]))]
      rfl

theorem intToUInt16_neg_one : intToUInt16 (-1) = 65535 := by decide

theorem intToUInt16_coe {p : Nat} (h : p < 65536) : intToUInt16 (p : Int) = p := by
  unfold intToUInt16
  rw [Int.emod_eq_of_lt (by omega) (by exact_mod_cast h)]
  simp

theorem strIndexOf_eq_neg_one (s : List Nat) (h : ∀ b ∈ s, b ≠ 13) :
    strIndexOf s LF = -1 := by
  unfold strIndexOf LF
  rw [strchrIdx_none_of_not_mem s 13 h]

theorem readLineStep_no13 (res : List Nat) (c : Nat)
    (h : ∀ b ∈ res ++ [c], b ≠ 13) (hlen : res.length + 1 ≤ 65535) :
    readLineStep res c = res ++ [c] := by
  unfold readLineStep
  rw [strIndexOf_eq_neg_one _ h]
  simp only [ne_eq, neg_eq_zero, one_ne_zero, not_false_eq_true, if_true, intToUInt16_neg_one,
    strSet]
  exact set_oob _ _ _ (by simp; omega)

theorem readLineStep_length (res : List Nat) (c : Nat) :
    (readLineStep res c).length = res.length + 1 := by
  unfold readLineStep strSet
  split
  · simp
  · simp

/-! ## C1: response classification of Command Transport -/

/-- C1: `bt_sendATCommand`'s classification (line 101) returns `true`
exactly when the response has length at least 2 and its first two bytes are
`'O'` (79) then `'K'` (75); every other response, including every response
shorter than 2 bytes, is classified `false`; and the classification depends
only on the first two bytes of the response (it never reads a position
beyond the response's actual length: out-of-range accesses hit the
bounds-checked dummy). -/
theorem spec_C1_ok_classification (resp : List Nat) :
    (classifyResponse resp = true ↔
      2 ≤ resp.length ∧ resp.take 2 = [79, 75]) ∧
    classifyResponse resp = classifyResponse (resp.take 2) := by
  match resp with
  | [] => exact ⟨by decide, rfl⟩
  | [a] =>
    constructor
    · simp [classifyResponse, strGet, sizeofArduinoString]
    · rfl
  | a :: b :: t =>
    constructor
    · simp [classifyResponse, strGet, sizeofArduinoString]
    · rfl

/-! ## Case analysis of one `readLineStep` -/

theorem strIndexOf_shape (s : List Nat) :
    strIndexOf s LF = -1 ∨ ∃ p : Nat, strIndexOf s LF = (p : Int) ∧ p < s.length := by
  unfold strIndexOf
  cases hE : strchrIdx LF s with
  | none => left; rfl
  | some i => right; exact ⟨i, rfl, strchrIdx_some_lt s LF i hE⟩

theorem readLineStep_skip_zero (res : List Nat) (c : Nat)
    (h : strIndexOf (res ++ [c]) LF = 0) : readLineStep res c = res ++ [c] := by
  unfold readLineStep
  rw [h]
  simp

theorem readLineStep_found (res : List Nat) (c p : Nat)
    (hlen : (res ++ [c]).length ≤ 65535)
    (h : strIndexOf (res ++ [c]) LF = (p : Int)) (hp : 1 ≤ p) :
    readLineStep res c = (res ++ [c]).set p 0 := by
  unfold readLineStep
  rw [h, if_pos (by omega), intToUInt16_coe ?_]
  · rfl
  · rcases strIndexOf_shape (res ++ [c]) with h1 | ⟨q, h1, hq⟩
    · rw [h1] at h; omega
    · rw [h1] at h
      have : q = p := by exact_mod_cast h
      omega

theorem readLineStep_notfound (res : List Nat) (c : Nat)
    (hlen : (res ++ [c]).length ≤ 65535)
    (h : strIndexOf (res ++ [c]) LF = -1) : readLineStep res c = res ++ [c] := by
  unfold readLineStep
  rw [h, if_pos (by norm_num), intToUInt16_neg_one]
  unfold strSet
  exact set_oob _ _ _ (by omega)

/-! ## Folding the reader over a whole stream -/

theorem foldl_readLineStep_no13 : ∀ (stream res : List Nat),
    (∀ b ∈ res, b ≠ 13) → (∀ b ∈ stream, b ≠ 13) →
    res.length + stream.length ≤ 65535 →
    stream.foldl readLineStep res = res ++ stream := by
  intro stream
  induction stream with
  | nil => intro res _ _ _; simp
  | cons c cs ih =>
    intro res hres hstream hlen
    simp only [List.length_cons] at hlen
    have hall : ∀ b ∈ res ++ [c], b ≠ 13 := by
      intro x hx
      rcases List.mem_append.1 hx with h1 | h1
      · exact hres x h1
      · simp only [List.mem_singleton] at h1
        rw [h1]
        exact hstream c (by simp)
    have hstep : readLineStep res c = res ++ [c] := by
      apply readLineStep_no13 res c hall
      omega
    have hrec := ih (res ++ [c]) hall (fun b hb => hstream b (by simp [hb]))
      (by simp only [List.length_append, List.length_cons, List.length_nil]; omega)
    simp only [List.foldl_cons, hstep, hrec, List.append_assoc, List.singleton_append]

theorem strSet_head?_of_pos (s : List Nat) (i v : Nat) (h : 1 ≤ i) :
    (strSet s i v).head? = s.head? := by
  unfold strSet
  cases s with
  | nil => rfl
  | cons a t =>
    cases i with
    | zero => omega
    | succ m => simp

theorem intToUInt16_pos_of_ne_zero (s : List Nat) (hl : s.length ≤ 65535)
    (hne : strIndexOf s LF ≠ 0) : 1 ≤ intToUInt16 (strIndexOf s LF) := by
  rcases strIndexOf_shape s with h | ⟨p, h, hp⟩
  · rw [h, intToUInt16_neg_one]; omega
  · rw [h, intToUInt16_coe (by omega)]
    have hp0 : p ≠ 0 := by
      rintro rfl
      rw [h] at hne
      simp at hne
    omega

theorem readLineStep_head? (res : List Nat) (c : Nat) (hres : res ≠ [])
    (hlen : res.length + 1 ≤ 65535) :
    (readLineStep res c).head? = res.head? := by
  have happ : (res ++ [c]).head? = res.head? := by
    cases res with
    | nil => exact absurd rfl hres
    | cons a t => simp
  unfold readLineStep
  split
  · rename_i hne
    rw [strSet_head?_of_pos _ _ _ (intToUInt16_pos_of_ne_zero _ (by simp; omega) hne), happ]
  · exact happ

theorem foldl_readLineStep_head? : ∀ (stream res : List Nat), res ≠ [] →
    res.length + stream.length ≤ 65535 →
    (stream.foldl readLineStep res).head? = res.head? := by
  intro stream
  induction stream with
  | nil => intro res _ _; rfl
  | cons c cs ih =>
    intro res hres hlen
    simp only [List.length_cons] at hlen
    have hne : readLineStep res c ≠ [] := by
      intro h0
      have := readLineStep_length res c
      rw [h0] at this
      simp at this
    have hrec := ih (readLineStep res c) hne (by rw [readLineStep_length]; omega)
    simp only [List.foldl_cons, hrec, readLineStep_head? res c hres (by omega)]

theorem readLineStep_nil (c : Nat) : readLineStep [] c = [c] := by
  unfold readLineStep
  split
  · rename_i hne
    have h1 := intToUInt16_pos_of_ne_zero [c] (by simp) (by simpa using hne)
    unfold strSet
    exact set_oob [c] _ 0 (by simpa using h1)
  · rfl

/-! ## C2: terminator rewriting in the Line Reader -/

/-- C2 counterexample: The claim says a terminator at position 0 of the
accumulated buffer is overwritten with the string-end marker.  It is not:
`if(int p = res.indexOf(LF))` tests the truthiness of `p`, so `p = 0` skips
the rewrite.  Feeding the single byte 13 to `readLine` leaves it in place. -/
theorem spec_C2_counterexample : readLine [13] = [13] ∧ readLine [13] ≠ [0] := by
  decide

/-- C2 amended: After appending an available byte, let the scan position
be `res.indexOf(LF)` (the first occurrence of byte 13 *before the first
embedded NUL*, `strchr` semantics).  If that position is at least 1, it is
overwritten with the string-end marker; if it is 0, nothing is overwritten;
if the terminator is absent (`-1`, i.e. unsigned 65535) the out-of-range
write is absorbed by the bounds check and the buffer is left as the plain
append.  Appending always continues with the remaining available bytes. -/
theorem spec_C2_amended (res : List Nat) (c : Nat)
    (hlen : (res ++ [c]).length ≤ 65535) :
    (strIndexOf (res ++ [c]) LF = 0 → readLineStep res c = res ++ [c]) ∧
    (∀ p : Nat, strIndexOf (res ++ [c]) LF = (p : Int) → 1 ≤ p →
      readLineStep res c = (res ++ [c]).set p 0) ∧
    (strIndexOf (res ++ [c]) LF = -1 → readLineStep res c = res ++ [c]) :=
  ⟨readLineStep_skip_zero res c,
   fun p h hp => readLineStep_found res c p hlen h hp,
   readLineStep_notfound res c hlen⟩

/-- C2 witness: On the buffer `[65]` with incoming byte 13 the scan
position is 1 and the terminator is overwritten there. -/
theorem spec_C2_witness : readLineStep [65] 13 = ([65] ++ [13]).set 1 0 :=
  (spec_C2_amended [65] 13 (by decide)).2.1 1 (by decide) (by decide)

/-! ## C9: the rewrite step never writes out of bounds -/

/-- C9: One step of the Line Reader only ever modifies the buffer at a
valid index: the result is either exactly the appended buffer, or the
appended buffer with a single in-range position overwritten by the end
marker; the buffer's length is always exactly one more than before; and in
particular, when a byte was available and the buffer contains no terminator
byte, the rewrite (whose computed index is the out-of-range 65535) changes
nothing. -/
theorem spec_C9_no_oob_write (res : List Nat) (c : Nat)
    (hlen : (res ++ [c]).length ≤ 65535) :
    (readLineStep res c).length = res.length + 1 ∧
    (readLineStep res c = res ++ [c] ∨
      ∃ p, p < (res ++ [c]).length ∧ readLineStep res c = (res ++ [c]).set p 0) ∧
    ((∀ b ∈ res ++ [c], b ≠ 13) → readLineStep res c = res ++ [c]) := by
  refine ⟨readLineStep_length res c, ?_,
    fun h => readLineStep_no13 res c h (by simpa using hlen)⟩
  rcases strIndexOf_shape (res ++ [c]) with h | ⟨p, h, hp⟩
  · exact Or.inl (readLineStep_notfound res c hlen h)
  · by_cases hp0 : p = 0
    · subst hp0
      exact Or.inl (readLineStep_skip_zero res c (by exact_mod_cast h))
    · exact Or.inr ⟨p, hp, readLineStep_found res c p hlen h (by omega)⟩

/-- C9 witness: A single available byte 65 on an empty buffer: no
terminator present, the step appends and performs no out-of-bounds write. -/
theorem spec_C9_witness :
    (readLineStep ([] : List Nat) 65).length = ([] : List Nat).length + 1 ∧
    (readLineStep ([] : List Nat) 65 = ([] : List Nat) ++ [65] ∨
      ∃ p, p < (([] : List Nat) ++ [65]).length ∧
        readLineStep ([] : List Nat) 65 = (([] : List Nat) ++ [65]).set p 0) ∧
    ((∀ b ∈ ([] : List Nat) ++ [65], b ≠ 13) →
      readLineStep ([] : List Nat) 65 = ([] : List Nat) ++ [65]) :=
  spec_C9_no_oob_write [] 65 (by decide)

/-! ## Scan index of the Input Normalizer -/

theorem set_append_head : ∀ (w : List Nat) (b : Nat) (l : List Nat) (v : Nat),
    (w ++ b :: l).set w.length v = w ++ v :: l := by
  intro w
  induction w with
  | nil => intro b l v; rfl
  | cons a t ih =>
    intro b l v
    simp only [List.cons_append, List.length_cons, List.set_cons_succ]
    rw [ih]

theorem fixScanIdx_clean_append : ∀ (w l : List Nat),
    (∀ b ∈ w, b ≠ 0 ∧ b ≠ 10) → fixScanIdx (w ++ l) = w.length + fixScanIdx l := by
  intro w
  induction w with
  | nil => intro l _; simp
  | cons a t ih =>
    intro l h
    have ha := h a (by simp)
    simp only [List.cons_append, fixScanIdx, List.append_eq]
    rw [if_neg (by simp [ha.1, ha.2]), ih l (fun b hb => h b (by simp [hb]))]
    simp only [List.length_cons]
    omega

/-! ## C7: the Input Normalizer is idempotent on canonical values -/

/-- C7: A canonically terminated value — content bytes containing neither
the end marker nor a newline, followed by a newline and then the end marker
— is left byte-for-byte unchanged by `fixTermInput` (the scan stops exactly
on the newline and rewrites newline and end marker onto themselves), and
hence applying the normalizer twice equals applying it once. -/
theorem spec_C7_normalizer_idempotent (w : List Nat)
    (hclean : ∀ b ∈ w, b ≠ 0 ∧ b ≠ 10) :
    fixTermInput (w ++ [10, 0]) = w ++ [10, 0] ∧
    fixTermInput (fixTermInput (w ++ [10, 0])) = fixTermInput (w ++ [10, 0]) := by
  have hidx : fixScanIdx (w ++ [10, 0]) = w.length := by
    rw [fixScanIdx_clean_append w [10, 0] hclean]
    rfl
  have hset0 : (w ++ [10, 0]).set w.length 10 = w ++ [10, 0] :=
    set_append_head w 10 [0] 10
  have hset1 : (w ++ [10, 0]).set (w.length + 1) 0 = w ++ [10, 0] := by
    rw [set_append_right w [10, 0] 1 0]
    rfl
  have h1 : fixTermInput (w ++ [10, 0]) = w ++ [10, 0] := by
    unfold fixTermInput strSet
    rw [hidx, hset0, hset1]
  exact ⟨h1, by rw [h1, h1]⟩

/-- C7 witness: The canonical value `"A\n\0"` is unchanged by one and by
two applications of the normalizer. -/
theorem spec_C7_witness :
    fixTermInput ([65] ++ [10, 0]) = [65] ++ [10, 0] ∧
    fixTermInput (fixTermInput ([65] ++ [10, 0])) = fixTermInput ([65] ++ [10, 0]) :=
  spec_C7_normalizer_idempotent [65] (by decide)

/-! ## C10: which byte is the readers' terminator -/

theorem strchrIdx_found_append : ∀ (w l : List Nat),
    (∀ b ∈ w, b ≠ 0 ∧ b ≠ 13) → strchrIdx 13 (w ++ 13 :: l) = some w.length := by
  intro w
  induction w with
  | nil => intro l _; rfl
  | cons a t ih =>
    intro l h
    have ha := h a (by simp)
    simp only [List.cons_append, strchrIdx, List.append_eq]
    rw [if_neg (by simp [ha.2]), if_neg (by simp [ha.1]),
      ih l (fun b hb => h b (by simp [hb]))]
    rfl

/-- C10: The terminator byte the two stream readers replace with the end
marker is `LF = 13` (carriage return), not byte 10: on a clean line ending
in byte 10 both readers change nothing, while on the same line ending in
byte 13 both readers overwrite the 13 with the end marker 0.  Only the
Input Normalizer reacts to byte 10: its scan stops exactly on the byte-10
position of the line (while it runs past a byte 13 to the end), and the
normalizer's rewrite is what canonicalizes that line. -/
theorem spec_C10_terminator_byte (w : List Nat) (hne : w ≠ [])
    (hlen : w.length + 1 ≤ 65535)
    (hclean : ∀ b ∈ w, b ≠ 0 ∧ b ≠ 10 ∧ b ≠ 13) :
    LF = 13 ∧
    readLine (w ++ [10]) = w ++ [10] ∧
    (readLineSerial [] (w ++ [10])).1 = w ++ [10] ∧
    readLine (w ++ [13]) = w ++ [0] ∧
    (readLineSerial [] (w ++ [13])).1 = w ++ [0] ∧
    fixScanIdx (w ++ [10]) = w.length ∧
    fixScanIdx (w ++ [13]) = w.length + 1 ∧
    fixTermInput (w ++ [10]) = w ++ [10] := by
  have h13 : ∀ b ∈ w, b ≠ 13 := fun b hb => (hclean b hb).2.2
  have h010 : ∀ b ∈ w, b ≠ 0 ∧ b ≠ 10 := fun b hb => ⟨(hclean b hb).1, (hclean b hb).2.1⟩
  have h013 : ∀ b ∈ w, b ≠ 0 ∧ b ≠ 13 := fun b hb => ⟨(hclean b hb).1, (hclean b hb).2.2⟩
  have hfw : List.foldl readLineStep [] w = w := by
    have h := foldl_readLineStep_no13 w [] (by simp) h13 (by simp; omega)
    simp only [List.nil_append] at h
    exact h
  have hr10 : readLine (w ++ [10]) = w ++ [10] := by
    unfold readLine
    rw [List.foldl_append, hfw]
    simp only [List.foldl_cons, List.foldl_nil]
    apply readLineStep_no13
    · intro b hb
      rcases List.mem_append.1 hb with h1 | h1
      · exact h13 b h1
      · simp only [List.mem_singleton] at h1; omega
    · omega
  have hr13 : readLine (w ++ [13]) = w ++ [0] := by
    unfold readLine
    rw [List.foldl_append, hfw]
    simp only [List.foldl_cons, List.foldl_nil]
    have hfound : strIndexOf (w ++ [13]) LF = (w.length : Int) := by
      unfold strIndexOf LF
      rw [strchrIdx_found_append w [] h013]
    have hlen1 : 1 ≤ w.length := by
      cases w with
      | nil => exact absurd rfl hne
      | cons a t => simp
    rw [readLineStep_found w 13 w.length (by simp; omega) hfound hlen1]
    exact set_append_head w 13 [] 0
  have hscan10 : fixScanIdx (w ++ [10]) = w.length := by
    rw [fixScanIdx_clean_append w [10] h010]
    rfl
  refine ⟨rfl, hr10, hr10, hr13, hr13, hscan10, ?_, ?_⟩
  · rw [fixScanIdx_clean_append w [13] h010]
    rfl
  · unfold fixTermInput strSet
    rw [hscan10]
    rw [set_append_head w 10 [] 10]
    exact set_oob _ _ _ (by simp)

/-- C10 witness: For the one-byte line `[65]`: a trailing byte 10
survives both readers and is found by the normalizer's scan, while a
trailing byte 13 is replaced by the end marker. -/
theorem spec_C10_witness :
    LF = 13 ∧
    readLine ([65] ++ [10]) = [65] ++ [10] ∧
    (readLineSerial [] ([65] ++ [10])).1 = [65] ++ [10] ∧
    readLine ([65] ++ [13]) = [65] ++ [0] ∧
    (readLineSerial [] ([65] ++ [13])).1 = [65] ++ [0] ∧
    fixScanIdx ([65] ++ [10]) = [65].length ∧
    fixScanIdx ([65] ++ [13]) = [65].length + 1 ∧
    fixTermInput ([65] ++ [10]) = [65] ++ [10] :=
  spec_C10_terminator_byte [65] (by decide) (by decide) (by decide)

/-! ## Messages printed by the sketch -/

/-- Byte 39, the apostrophe appearing inside some of the French messages. -/
def apos : Nat := 39

def promptName : List Nat := strB ("Entrer un nom pour le module ?")

def promptPass : List Nat := strB ("Entrer une nouvelle passkey (par exemple : 1234 ) ?")

def msgNameIs : List Nat := strB ("Le nom du module est maintenant : ")

def msgPassIs : List Nat := strB ("La nouvelle passkey est maintenant : ")

def msgATmode : List Nat := strB ("Votre module est bien en mode AT :) ")

def msgRetry : List Nat := strB ("... prochain test dans 3 secondes ...")

def msgUnknownOption : List Nat :=
  strB ("Cette option n") ++ [apos] ++
    strB ("existe pas, envoie de la commande directement comme commande AT.")

/-- The five lines of `dislay_help_enabl_ATMode` (lines 120-126). -/
def msgHelpATMode : List (List Nat) :=
  [ strB ("Vous devez mettre le module HC-05 (ZS-040) en mode AT : ")
  , strB ("1 - Débrancher l") ++ [apos] ++ strB ("alimentation du module")
  , strB ("2 - Maintenir le bouton switch du module")
  , strB ("3 - Alimenter le module")
  , strB ("4 - Relancher le bouton switch quand la LED clignotte toutes les 2 secondes") ]

/-- The seven lines of `display_configure_menu` (lines 132-140). -/
def menuLines : List (List Nat) :=
  [ strB ("")
  , strB ("Menu de configuration du HC-05 : ")
  , strB ("(N) - Configurer le nom du module")
  , strB ("(P) - Changer la passkey (code d") ++ [apos] ++ strB ("apairage)")
  , strB ("(AT+...) - Entrez directement une commmande AT (cf doc sur wiki)")
  , strB ("")
  , strB ("Entrez une option (ex: N) :") ]

/-- Observable effects of one handler or loop iteration: the sequence of
messages printed to the operator stream (one entry per `Serial.println`),
the bytes written to the module stream, and the `delay` calls issued (the
per-byte `delay(1)` of `readLineSerial` and the `delay(10)` calls of the
wait loop, modelled separately by `btWaitFrom`, are not recorded here). -/
structure LoopEffects where
  serialOut : List (List Nat)
  btOut : List Nat
  delays : List Nat
deriving DecidableEq

/-- Function setModuleName (lines 146-163).  The prompt is printed, then the
routine busy-waits until operator bytes are available; `opIn` is the byte
sequence that arrives (`opIn = []` models the degenerate `len = 0` path),
`btReply` the bytes the module stream answers with.  Only when the line is
non-empty and does not start with a space is `fixTermInput` applied, the
command `"AT+NAME=" + userInput` sent, the confirmation printed on success,
and the raw response printed in every case. -/
def setModuleName (opIn btReply : List Nat) : LoopEffects :=
  if 1 ≤ (readLineSerial [] opIn).2 ∧ strGet (readLineSerial [] opIn).1 0 ≠ 32 then
    { serialOut := [promptName] ++
        (if (bt_sendATCommand (strB ("AT+NAME=") ++ fixTermInput (readLineSerial [] opIn).1)
              btReply).ok then
          [msgNameIs ++ fixTermInput (readLineSerial [] opIn).1]
        else []) ++
        [(bt_sendATCommand (strB ("AT+NAME=") ++ fixTermInput (readLineSerial [] opIn).1)
            btReply).response]
    , btOut := (bt_sendATCommand (strB ("AT+NAME=") ++ fixTermInput (readLineSerial [] opIn).1)
        btReply).sent
    , delays := [] }
  else
    { serialOut := [promptName], btOut := [], delays := [] }

/-- Function setPassKey (lines 169-184): same shape with prefix `"AT+PSWD="`; the
confirmation is printed on success, but unlike `setModuleName` the raw
response is never printed. -/
def setPassKey (opIn btReply : List Nat) : LoopEffects :=
  if 1 ≤ (readLineSerial [] opIn).2 ∧ strGet (readLineSerial [] opIn).1 0 ≠ 32 then
    { serialOut := [promptPass] ++
        (if (bt_sendATCommand (strB ("AT+PSWD=") ++ fixTermInput (readLineSerial [] opIn).1)
              btReply).ok then
          [msgPassIs ++ fixTermInput (readLineSerial [] opIn).1]
        else [])
    , btOut := (bt_sendATCommand (strB ("AT+PSWD=") ++ fixTermInput (readLineSerial [] opIn).1)
        btReply).sent
    , delays := [] }
  else
    { serialOut := [promptPass], btOut := [], delays := [] }

/-- The `switch((char)userInput[0])` dispatch of lines 212-227: `'N'` (78)
and `'P'` (80) invoke the Named Setters (which read a second operator line,
`opSecond`); any other first character prints the unknown-option notice,
echoes `"AT > " + userInput`, submits the whole line as a raw AT command
and prints the raw response unconditionally. -/
def dispatch (u opSecond btCmdReply : List Nat) : LoopEffects :=
  if strGet u 0 = 78 then setModuleName opSecond btCmdReply
  else if strGet u 0 = 80 then setPassKey opSecond btCmdReply
  else
    { serialOut := [msgUnknownOption, strB ("AT > ") ++ u,
        (bt_sendATCommand u btCmdReply).response]
    , btOut := (bt_sendATCommand u btCmdReply).sent
    , delays := [] }

/-- The READY branch of `loop` (lines 202-230): success banner and menu are
printed, the loop busy-waits for operator bytes (`opFirst` is what arrives),
reads one line, and if at least one byte was read normalizes it and
dispatches on its first character; `delay(100)` closes the branch. -/
def loopReady (opFirst opSecond btCmdReply : List Nat) : LoopEffects :=
  if 1 ≤ (readLineSerial [] opFirst).2 then
    { serialOut := [msgATmode] ++ menuLines ++
        (dispatch (fixTermInput (readLineSerial [] opFirst).1) opSecond btCmdReply).serialOut
    , btOut := (dispatch (fixTermInput (readLineSerial [] opFirst).1) opSecond btCmdReply).btOut
    , delays := (dispatch (fixTermInput (readLineSerial [] opFirst).1) opSecond
        btCmdReply).delays ++ [100] }
  else
    { serialOut := [msgATmode] ++ menuLines, btOut := [], delays := [100] }

/-- One iteration of `loop` (lines 196-239): the probe `"AT"` is sent first
(`bt_checkATenabled`), with `btProbe` the module's answer bytes; on success
the READY branch runs, otherwise the NOT_READY branch prints the four-step
instructions, the retry notice, and delays 3000.  Both branches end with a
blank `Serial.println("")`. -/
def loopIter (btProbe opFirst opSecond btCmdReply : List Nat) : LoopEffects :=
  if (bt_sendATCommand (strB ("AT")) btProbe).ok then
    { serialOut := (loopReady opFirst opSecond btCmdReply).serialOut ++ [strB ("")]
    , btOut := (bt_sendATCommand (strB ("AT")) btProbe).sent ++
        (loopReady opFirst opSecond btCmdReply).btOut
    , delays := (loopReady opFirst opSecond btCmdReply).delays }
  else
    { serialOut := msgHelpATMode ++ [msgRetry, strB ("")]
    , btOut := (bt_sendATCommand (strB ("AT")) btProbe).sent
    , delays := [3000] }

/-- Contiguous-occurrence test: does `needle` occur as a contiguous block
inside the second list? -/
def containsSeq (needle : List Nat) : List Nat → Bool
  | [] => needle == []
  | h :: t => ((h :: t).take needle.length == needle) || containsSeq needle t

theorem take_four (x : List Nat) (a b c d : Nat) :
    (a :: b :: c :: d :: x).take 4 = [a, b, c, d] := rfl

/-! ## C3: what the module stream actually receives from `setModuleName` -/

/-- C3 counterexample: With the operator terminal sending CR LF line
endings, after selecting `'N'` and entering `MyDevice` the module stream
does **not** receive `AT+NAME=MyDevice` followed by a single newline:
`readLineSerial` rewrites the CR to a NUL, `fixTermInput` turns it into
LF NUL, and `bt.println` appends CR LF, so four extra bytes follow the
name. -/
theorem spec_C3_counterexample :
    (setModuleName (strB ("MyDevice\r\n")) (strB ("OK\r\n"))).btOut ≠
      strB ("AT+NAME=MyDevice") ++ [10] := by
  decide

/-- C3 amended: With the operator terminal sending CR LF line endings,
`setModuleName` on input `MyDevice` sends to the module stream exactly the
bytes of `AT+NAME=MyDevice` followed by LF, NUL, CR, LF and nothing more;
the module's reply `"OK\r\n"` is classified as success, the operator stream
receives the prompt, a confirmation line containing `MyDevice`, and the raw
captured response. -/
theorem spec_C3_amended :
    (setModuleName (strB ("MyDevice\r\n")) (strB ("OK\r\n"))).btOut =
      strB ("AT+NAME=MyDevice") ++ [10, 0, 13, 10] ∧
    (setModuleName (strB ("MyDevice\r\n")) (strB ("OK\r\n"))).serialOut =
      [promptName, msgNameIs ++ strB ("MyDevice") ++ [10, 0], strB ("OK") ++ [0, 10]] ∧
    containsSeq (strB ("MyDevice"))
      ((setModuleName (strB ("MyDevice\r\n")) (strB ("OK\r\n"))).serialOut.getD 1 []) = true := by
  refine ⟨?_, ?_, ?_⟩ <;> decide

/-! ## C4: empty or space-led input is rejected silently -/

/-- C4: If the operator's input line is empty or its first byte is a
space (32), both Named Setters print only their prompt, send nothing to the
module stream, and produce no confirmation, no response echo and no delay:
the rejection is silent. -/
theorem spec_C4_silent_reject (opIn btReply : List Nat) (hlen : opIn.length ≤ 65535)
    (h : opIn = [] ∨ opIn.head? = some 32) :
    setModuleName opIn btReply = { serialOut := [promptName], btOut := [], delays := [] } ∧
    setPassKey opIn btReply = { serialOut := [promptPass], btOut := [], delays := [] } := by
  have hcond : ¬ (1 ≤ (readLineSerial [] opIn).2 ∧ strGet (readLineSerial [] opIn).1 0 ≠ 32) := by
    rcases h with rfl | hh
    · simp [readLineSerial]
    · rcases opIn with _ | ⟨c, rest⟩
      · simp [readLineSerial]
      · simp only [List.head?_cons, Option.some.injEq] at hh
        subst hh
        have hu : ((readLineSerial [] (32 :: rest)).1).head? = some 32 := by
          show ((32 :: rest).foldl readLineStep []).head? = some 32
          rw [List.foldl_cons, readLineStep_nil]
          rw [foldl_readLineStep_head? rest [32] (by simp)
            (by simp only [List.length_cons] at hlen; simp; omega)]
          rfl
        have h32 : strGet (readLineSerial [] (32 :: rest)).1 0 = 32 := by
          rcases hE : (readLineSerial [] (32 :: rest)).1 with _ | ⟨a, t⟩
          · rw [hE] at hu; simp at hu
          · rw [hE] at hu
            simp only [List.head?_cons, Option.some.injEq] at hu
            simp [strGet, hu]
        simp [h32]
  constructor
  · unfold setModuleName
    rw [if_neg hcond]
  · unfold setPassKey
    rw [if_neg hcond]

/-- C4 witness: The input `" 1234"` (leading space) is rejected
silently by both setters. -/
theorem spec_C4_witness :
    setModuleName [32, 49, 50, 51, 52] [] =
      { serialOut := [promptName], btOut := [], delays := [] } ∧
    setPassKey [32, 49, 50, 51, 52] [] =
      { serialOut := [promptPass], btOut := [], delays := [] } :=
  spec_C4_silent_reject [32, 49, 50, 51, 52] [] (by decide) (Or.inr rfl)

/-! ## C5: raw pass-through of unrecognized options -/

/-- C5: For an operator line whose first character is neither `'N'` nor
`'P'` (and which carries no terminator bytes of its own), the READY branch
forwards exactly that line, unmodified, to the module stream — followed by
the CR LF with which `println` terminates every command line — and echoes
the raw captured reply to the operator stream whatever the reply was, i.e.
independently of its success/failure classification. -/
theorem spec_C5_raw_forward (line opSecond btReply : List Nat)
    (hne : line ≠ [])
    (hclean : ∀ b ∈ line, b ≠ 0 ∧ b ≠ 10 ∧ b ≠ 13)
    (hlen : line.length ≤ 65535)
    (hN : strGet line 0 ≠ 78) (hP : strGet line 0 ≠ 80) :
    (loopReady line opSecond btReply).btOut = line ++ [13, 10] ∧
    (loopReady line opSecond btReply).serialOut =
      [msgATmode] ++ menuLines ++
        [msgUnknownOption, strB ("AT > ") ++ line, readLine btReply] := by
  have huser : (readLineSerial [] line).1 = line := by
    show line.foldl readLineStep [] = line
    have h := foldl_readLineStep_no13 line [] (by simp)
      (fun b hb => (hclean b hb).2.2) (by simp; omega)
    simp only [List.nil_append] at h
    exact h
  have hfix : fixTermInput line = line := by
    unfold fixTermInput strSet
    have hidx : fixScanIdx line = line.length := by
      have := fixScanIdx_clean_append line []
        (fun b hb => ⟨(hclean b hb).1, (hclean b hb).2.1⟩)
      simpa using this
    rw [hidx, set_oob line line.length 10 (le_refl _)]
    exact set_oob _ _ _ (by simp)
  have hlen1 : 1 ≤ (readLineSerial [] line).2 := by
    show 1 ≤ line.length
    cases line with
    | nil => exact absurd rfl hne
    | cons a t => simp
  unfold loopReady
  rw [if_pos hlen1, huser, hfix]
  unfold dispatch
  rw [if_neg hN, if_neg hP]
  exact ⟨rfl, rfl⟩

/-- C5 witness: The operator line `AT+VERSION?` is forwarded verbatim
(plus the CR LF line terminator) and the captured reply is echoed. -/
theorem spec_C5_witness :
    (loopReady (strB ("AT+VERSION?")) [] (strB ("OK\r\n"))).btOut =
      strB ("AT+VERSION?") ++ [13, 10] ∧
    (loopReady (strB ("AT+VERSION?")) [] (strB ("OK\r\n"))).serialOut =
      [msgATmode] ++ menuLines ++
        [msgUnknownOption, strB ("AT > ") ++ strB ("AT+VERSION?"),
          readLine (strB ("OK\r\n"))] :=
  spec_C5_raw_forward (strB ("AT+VERSION?")) [] (strB ("OK\r\n"))
    (by decide) (by decide) (by decide) (by decide) (by decide)

/-! ## C6: NOT_READY branch when the module stays silent -/

/-- C6: When the module stream delivers no data in answer to the probe
`"AT"`, the Mode Detector returns `false`, and the loop iteration takes the
NOT_READY branch: it prints exactly the four-step instruction text (plus
header), the retry notice and the closing blank line, sends only the probe
to the module, and delays 3000 before the next iteration — which re-probes,
since every iteration's module-stream output starts with the probe bytes. -/
theorem spec_C6_not_ready (opFirst opSecond btCmdReply : List Nat) :
    bt_checkATenabled [] = false ∧
    loopIter [] opFirst opSecond btCmdReply =
      { serialOut := msgHelpATMode ++ [msgRetry, strB ("")]
      , btOut := strB ("AT") ++ [13, 10]
      , delays := [3000] } ∧
    (∀ btProbe, ((loopIter btProbe opFirst opSecond btCmdReply).btOut).take 4 =
      strB ("AT") ++ [13, 10]) := by
  refine ⟨rfl, rfl, ?_⟩
  intro btProbe
  unfold loopIter
  split
  · exact take_four _ 65 84 13 10
  · rfl

/-! ## C8: the response wait is bounded -/

theorem btWaitFrom_le (avail : Nat → Bool) : ∀ (r i : Nat), btWaitFrom avail r i ≤ i + r := by
  intro r
  induction r with
  | zero => intro i; simp [btWaitFrom]
  | succ n ih =>
    intro i
    unfold btWaitFrom
    split
    · omega
    · have := ih (i + 1)
      omega

theorem btWaitFrom_allfalse (avail : Nat → Bool) (h : ∀ t, avail t = false) :
    ∀ (r i : Nat), btWaitFrom avail r i = i + r := by
  intro r
  induction r with
  | zero => intro i; simp [btWaitFrom]
  | succ n ih =>
    intro i
    unfold btWaitFrom
    rw [h i]
    simp only [Bool.false_eq_true, if_false]
    rw [ih (i + 1)]
    omega

/-- C8: The wait for the module's first response byte is bounded: the
loop runs at most 100 iterations of `delay(10)` (at most 1000 time units in
total), for every availability history; when no byte ever arrives the loop
runs its full 100 iterations and the transport still proceeds to read and
classify the (empty) response instead of failing: it returns the sent
bytes, the empty response and the ordinary `false` classification. -/
theorem spec_C8_bounded_wait (avail : Nat → Bool) (cmd : List Nat) :
    btWait avail ≤ 100 ∧ 10 * btWait avail ≤ 1000 ∧
    ((∀ t, avail t = false) →
      btWait avail = 100 ∧
      bt_sendATCommand cmd [] =
        { sent := cmd ++ [13, 10], response := [], ok := false }) := by
  have h1 : btWait avail ≤ 100 := by
    have := btWaitFrom_le avail 100 0
    simpa [btWait] using this
  refine ⟨h1, by omega, fun hf => ⟨?_, rfl⟩⟩
  have := btWaitFrom_allfalse avail hf 100 0
  simpa [btWait] using this

/-- C8 witness: With no byte ever available, the wait runs exactly its
100 iterations and the probe exchange still completes with an empty,
unsuccessful response. -/
theorem spec_C8_witness :
    btWait (fun _ => false) = 100 ∧
    bt_sendATCommand [65, 84] [] =
      { sent := [65, 84] ++ [13, 10], response := [], ok := false } :=
  (spec_C8_bounded_wait (fun _ => false) [65, 84]).2.2 (fun _ => rfl)

end HC05
